import Mathlib

/-!
Verification of the customer/order simulation and host-authoritative network
replication layer of the qualite-cuite-game repository.

The JavaScript sources are shallowly embedded:
* JS `number` values used for coordinates, times and patience are modelled as
  exact rationals (`ℚ`); all numeric claims of the specification are stated at
  rational inputs that are exactly representable as binary floats, so the JS
  float semantics and the rational semantics coincide on every computation in
  this file.
* Mutating methods become functions from the old state to the new state.
* `Math.random()`-driven choices take the random draw as an explicit oracle
  argument.
* `Math.hypot` distances are compared only with `<`; since the real square
  root is strictly monotone, comparing squared distances is equivalent, so
  the embedding works with the squared Euclidean distance `distSq`.
* The out-of-band `setTimeout` seat releases are modelled as separate
  transition steps (`CMStep.release`) that may fire on any terminal customer,
  exactly the situations in which the source arms such a timer.
-/

/- The Batteries rational arithmetic definitions are `irreducible`, which
blocks `decide`-style evaluation of the model at concrete inputs; proofs
remain kernel-checked, this only restores default unfolding. -/
attribute [local semireducible] Rat.add Rat.sub Rat.mul Rat.inv Rat.ofScientific

/-- An order: mapping from the two item kinds to counts
(`src/unnamed/part_000`, `{ kebab: 0-2, drink: 0-2 }`). -/
structure Order where
  kebab : ℕ
  drink : ℕ
deriving DecidableEq

/-- The two item kinds (`ItemType` in `src/unnamed/part_002`). -/
inductive ItemType where
  | kebab
  | drink
deriving DecidableEq

/-- A portable item (`Item` in `src/unnamed/part_002`); only its `type`
matters to the simulation. -/
structure Item where
  type : ItemType
deriving DecidableEq

/-- A customer (`Customer` in `src/unnamed/part_000`).  The geometric fields
come from `Entity`; the purely visual fields `animationTime` and
`bubbleOffset` (rendering only, out of the specification's scope) are
omitted. -/
structure Customer where
  x : ℚ
  y : ℚ
  width : ℚ
  height : ℚ
  order : Order
  originalOrder : Order
  satisfied : Bool
  angry : Bool
  maxPatience : ℚ
  patience : ℚ
  positionIndex : ℕ
deriving DecidableEq

/-- `Customer` constructor (`src/unnamed/part_000` lines 8-26):
`super(x, y, 50, 60)`, order copied, patience derived from the order size.
`positionIndex` is assigned by the caller right after construction; before
that the source leaves it undefined, modelled by the placeholder `0`. -/
def Customer.new (x y : ℚ) (order : Order) (basePatience : ℚ) : Customer :=
  let totalItems : ℤ := (order.kebab : ℤ) + (order.drink : ℤ)
  let extraTime : ℤ := max 0 (totalItems - 1) * 5
  { x := x, y := y, width := 50, height := 60
    order := order, originalOrder := order
    satisfied := false, angry := false
    maxPatience := basePatience + (extraTime : ℚ)
    patience := basePatience + (extraTime : ℚ)
    positionIndex := 0 }

/-- The seven order choices of `Customer.generateRandomOrder` with their
relative weights `[3, 3, 2, 2, 2, 1, 1]`. -/
def orderChoices : List (Order × ℚ) :=
  [(⟨1, 0⟩, 3), (⟨0, 1⟩, 3), (⟨2, 0⟩, 2), (⟨0, 2⟩, 2), (⟨1, 1⟩, 2),
    (⟨2, 1⟩, 1), (⟨1, 2⟩, 1)]

/-- The selection loop of `Customer.generateRandomOrder`: walk the weighted
choices subtracting weights from the random draw until it is ≤ 0; the
fallback `{kebab: 1, drink: 0}` mirrors the final `return`. -/
def pickWeighted : List (Order × ℚ) → ℚ → Order
  | [], _ => ⟨1, 0⟩
  | (o, w) :: rest, r => if r - w ≤ 0 then o else pickWeighted rest (r - w)

/-- `Customer.generateRandomOrder` with the draw
`r = Math.random() * totalWeight ∈ [0, 14)` as an oracle argument. -/
def Customer.generateRandomOrder (r : ℚ) : Order :=
  pickWeighted orderChoices r

/-- `Customer.update(deltaTime)` (`src/unnamed/part_000` lines 63-75),
restricted to the simulation-relevant patience/anger part (the first two
lines of the source method only move the rendering bubble). -/
def Customer.update (dt : ℚ) (c : Customer) : Customer :=
  if !c.satisfied && !c.angry then
    let p := c.patience - dt
    if p ≤ 0 then { c with patience := 0, angry := true }
    else { c with patience := p }
  else c

/-- `Customer.needsItem(itemType)`. -/
def Customer.needsItem (c : Customer) (t : ItemType) : Bool :=
  match t with
  | .kebab => decide (0 < c.order.kebab)
  | .drink => decide (0 < c.order.drink)

/-- `Customer.checkIfSatisfied()`. -/
def Customer.checkIfSatisfied (c : Customer) : Customer :=
  if c.order.kebab = 0 ∧ c.order.drink = 0 then { c with satisfied := true } else c

/-- `Customer.deliverItem(item)`: returns the JS boolean result together with
the mutated customer. -/
def Customer.deliverItem (c : Customer) (item : Option Item) : Bool × Customer :=
  match item with
  | none => (false, c)
  | some it =>
    match it.type with
    | .kebab =>
      if 0 < c.order.kebab then
        (true, Customer.checkIfSatisfied { c with order := { c.order with kebab := c.order.kebab - 1 } })
      else (false, c)
    | .drink =>
      if 0 < c.order.drink then
        (true, Customer.checkIfSatisfied { c with order := { c.order with drink := c.order.drink - 1 } })
      else (false, c)

/-- `Customer.getTotalOrderItems()`. -/
def Customer.getTotalOrderItems (c : Customer) : ℕ :=
  c.originalOrder.kebab + c.originalOrder.drink

/-- `Customer.getRemainingItems()`. -/
def Customer.getRemainingItems (c : Customer) : ℕ :=
  c.order.kebab + c.order.drink

/-- Default customer used as the `getD` fallback when stating theorems about
list indexing; never reachable at in-bounds indices. -/
def defaultCustomer : Customer := Customer.new 0 0 ⟨0, 0⟩ 0

/-- Pointwise update of a seat-occupancy map. -/
def setOcc (f : ℕ → Bool) (i : ℕ) (b : Bool) : ℕ → Bool :=
  fun j => if j = i then b else f j

/-- `CustomerManager` (`src/unnamed/part_004`).  The source's
`customerPositions` array of 4 seats, each `{x, y, occupied}`, is represented
by the generating coordinates (`spotX`, `spotY`, see `calculatePositions`)
together with the occupancy map `occupied`; the coordinates of seat `i` are
recovered by `posX`/`posY` below. -/
structure CustomerManager where
  customers : List Customer
  maxCustomers : ℕ
  spawnDelay : ℚ
  timeSinceLastSpawn : ℚ
  autoSpawn : Bool
  customerPatience : ℚ
  customersServed : ℕ
  customersLost : ℕ
  occupied : ℕ → Bool
  spotX : ℚ
  spotY : ℚ

/-- Number of counter seats created by `calculatePositions` (the loop bound
`i < 4`). -/
def numPositions : ℕ := 4

/-- x-coordinate of seat `i`: `startX + i * spacing` with `startX = spot.x - 70`
and `spacing = 65`. -/
def CustomerManager.posX (m : CustomerManager) (i : ℕ) : ℚ :=
  m.spotX - 70 + (i : ℚ) * 65

/-- y-coordinate of every seat: `spot.y + 5`. -/
def CustomerManager.posY (m : CustomerManager) : ℚ :=
  m.spotY + 5

/-- `CustomerManager` constructor state for a map whose `customerSpot` is at
`(spotX, spotY)`. -/
def initCustomerManager (spotX spotY : ℚ) : CustomerManager :=
  { customers := []
    maxCustomers := 2
    spawnDelay := 3000
    timeSinceLastSpawn := 0
    autoSpawn := false
    customerPatience := 15
    customersServed := 0
    customersLost := 0
    occupied := fun _ => false
    spotX := spotX, spotY := spotY }

/-- `CustomerManager.configure(maxCustomers, spawnDelay, patience)`. -/
def CustomerManager.configure (m : CustomerManager) (maxC : ℕ) (delay patience : ℚ) :
    CustomerManager :=
  { m with maxCustomers := maxC, spawnDelay := delay, customerPatience := patience
           autoSpawn := true, timeSinceLastSpawn := delay }

/-- `CustomerManager.reset()`. -/
def CustomerManager.reset (m : CustomerManager) : CustomerManager :=
  { m with customers := [], occupied := fun _ => false, timeSinceLastSpawn := 0
           autoSpawn := false, customersServed := 0, customersLost := 0 }

/-- `CustomerManager.findFreePosition()`: first unoccupied seat index `i` with
`i < maxCustomers && i < customerPositions.length`; `null` becomes `none`. -/
def CustomerManager.findFreePosition (m : CustomerManager) : Option ℕ :=
  (List.range (min m.maxCustomers numPositions)).find? (fun i => !(m.occupied i))

/-- `CustomerManager.spawnCustomer()` with the random draw `r` for the order
generator as oracle; returns the updated manager (the source also returns
the customer object or `null`, which callers ignore). -/
def CustomerManager.spawnCustomer (m : CustomerManager) (r : ℚ) : CustomerManager :=
  match m.findFreePosition with
  | none => m
  | some i =>
    let order := Customer.generateRandomOrder r
    let c := { Customer.new (m.posX i) m.posY order m.customerPatience with positionIndex := i }
    { m with occupied := setOcc m.occupied i true
             customers := m.customers ++ [c] }

/-- `CustomerManager.getWaitingCount()` (also the inline `waitingCount`
computation in `update`). -/
def CustomerManager.getWaitingCount (m : CustomerManager) : ℕ :=
  (m.customers.filter (fun c => !c.satisfied && !c.angry)).length

/-- Squared Euclidean distance between the player's center and a customer's
center, as computed in `findNearestCustomerNeedingItem` (which uses
`Math.hypot`; only `<`-comparisons of the results are made, so squaring is
order-preserving and faithful). -/
def distSq (pc : ℚ × ℚ) (c : Customer) : ℚ :=
  (pc.1 - (c.x + c.width / 2)) ^ 2 + (pc.2 - (c.y + c.height / 2)) ^ 2

/-- The two `continue` guards of the search loop: a customer is considered
only if non-terminal and still needing the item. -/
def eligibleB (c : Customer) (t : ItemType) : Bool :=
  !c.satisfied && !c.angry && c.needsItem t

/-- The loop of `findNearestCustomerNeedingItem`: `i` is the array index of
the current element, the accumulator holds `(nearest, minDist)`; the source's
initial `nearest = null, minDist = Infinity` is the `none` accumulator (every
real distance is below `Infinity`, so the first eligible customer always
replaces it).  The array index is carried alongside the customer to model JS
object aliasing (the caller mutates the found array element in place). -/
def findGo (pc : ℚ × ℚ) (t : ItemType) :
    List Customer → ℕ → Option ((ℕ × Customer) × ℚ) → Option ((ℕ × Customer) × ℚ)
  | [], _, best => best
  | c :: rest, i, best =>
    if c.satisfied || c.angry then findGo pc t rest (i + 1) best
    else if !c.needsItem t then findGo pc t rest (i + 1) best
    else
      let d := distSq pc c
      match best with
      | none => findGo pc t rest (i + 1) (some ((i, c), d))
      | some (b, mn) =>
        if d < mn then findGo pc t rest (i + 1) (some ((i, c), d))
        else findGo pc t rest (i + 1) (some (b, mn))

/-- `CustomerManager.findNearestCustomerNeedingItem(player, itemType)`; the
player argument is its center (`player.getCenter()`), the only thing the
source reads from it. -/
def CustomerManager.findNearestCustomerNeedingItem (m : CustomerManager)
    (pc : ℚ × ℚ) (t : ItemType) : Option (ℕ × Customer) :=
  if m.customers.isEmpty then none
  else (findGo pc t m.customers 0 none).map Prod.fst

/-- The result object of `tryServeCustomer`; fields the source leaves absent
on a given path default to `false`/`0` (reading an absent JS field yields a
falsy value). -/
structure ServeResult where
  success : Bool
  points : ℕ
  wrongOrder : Bool := false
  correct : Bool := false
  completed : Bool := false
  orderSize : ℕ := 0
deriving DecidableEq

/-- `CustomerManager.tryServeCustomer(player, item)` (`src/unnamed/part_004`
lines 134-167).  The in-place mutation of the found customer becomes a
`List.set` at its array index; the `setTimeout` removal armed on completion
is modelled by the separate `CMStep.release` transition. -/
def CustomerManager.tryServeCustomer (m : CustomerManager) (pc : ℚ × ℚ)
    (item : Option Item) : ServeResult × CustomerManager :=
  match item with
  | none => ({ success := false, points := 0 }, m)
  | some it =>
    match m.findNearestCustomerNeedingItem pc it.type with
    | none => ({ success := false, points := 0, wrongOrder := true }, m)
    | some (i, c) =>
      let res := c.deliverItem (some it)
      let accepted := res.1
      let c' := res.2
      if accepted then
        let completed := c'.satisfied
        let points := if completed then c'.getTotalOrderItems else 1
        ({ success := true, correct := true, points := points
           completed := completed, orderSize := c'.getTotalOrderItems },
         { m with customers := m.customers.set i c'
                  customersServed := if completed then m.customersServed + 1 else m.customersServed })
      else ({ success := false, points := 0 }, { m with customers := m.customers.set i c' })

/-- The `setTimeout` callback armed when a customer becomes terminal
(`removeCustomer(customer)` plus freeing the captured seat index). -/
def CustomerManager.releaseCustomer (m : CustomerManager) (c : Customer) : CustomerManager :=
  { m with customers := m.customers.erase c
           occupied := setOcc m.occupied c.positionIndex false }

/-- `CustomerManager.update(deltaTime)` with the potential spawn's random
draw `r` as oracle.  The source's backward `for` loop updates each customer
exactly once and counts those that just turned angry (their removal is the
out-of-band `setTimeout`, modelled by `CMStep.release`); the order of
iteration does not affect the resulting state, so it is a `map` plus a
count. -/
def CustomerManager.update (m : CustomerManager) (dt : ℚ) (r : ℚ) : CustomerManager :=
  let m₁ :=
    if m.autoSpawn then
      let t := m.timeSinceLastSpawn + dt * 1000
      if m.spawnDelay ≤ t then
        let m' := if m.getWaitingCount < m.maxCustomers then m.spawnCustomer r else m
        { m' with timeSinceLastSpawn := 0 }
      else { m with timeSinceLastSpawn := t }
    else m
  let newlyAngry :=
    (m₁.customers.filter (fun c => !c.angry && (Customer.update dt c).angry)).length
  { m₁ with customers := m₁.customers.map (Customer.update dt)
            customersLost := m₁.customersLost + newlyAngry }

/-- One observable transition of the authoritative customer simulation:
the public mutators plus the deferred seat release, which the source arms
(`setTimeout`) exactly when a customer becomes terminal and which fires
between ticks. -/
inductive CMStep : CustomerManager → CustomerManager → Prop where
  | configure (m : CustomerManager) (maxC : ℕ) (delay patience : ℚ) :
      CMStep m (m.configure maxC delay patience)
  | reset (m : CustomerManager) : CMStep m m.reset
  | update (m : CustomerManager) (dt r : ℚ) : CMStep m (m.update dt r)
  | serve (m : CustomerManager) (pc : ℚ × ℚ) (item : Option Item) :
      CMStep m (m.tryServeCustomer pc item).2
  | release (m : CustomerManager) (c : Customer) (hmem : c ∈ m.customers)
      (hterm : c.satisfied = true ∨ c.angry = true) :
      CMStep m (m.releaseCustomer c)

/-- Reachability of a manager state from the freshly constructed manager of a
map with `customerSpot` at `(spotX, spotY)`. -/
def CMReachable (spotX spotY : ℚ) (m : CustomerManager) : Prop :=
  Relation.ReflTransGen CMStep (initCustomerManager spotX spotY) m

/-- One customer's entry in the `gameState` snapshot
(`CustomerManager.getCustomersData`, `src/unnamed/part_004` lines 250-262). -/
structure CustomerNetData where
  x : ℚ
  y : ℚ
  positionIndex : ℕ
  order : Order
  originalOrder : Order
  patience : ℚ
  maxPatience : ℚ
  satisfied : Bool
  angry : Bool
deriving DecidableEq

/-- Default snapshot entry used as the `getD` fallback in theorem statements. -/
def defaultNetData : CustomerNetData :=
  { x := 0, y := 0, positionIndex := 0, order := ⟨0, 0⟩, originalOrder := ⟨0, 0⟩
    patience := 0, maxPatience := 0, satisfied := false, angry := false }

/-- `CustomerManager.getCustomersData()` (host-side serialization). -/
def CustomerManager.getCustomersData (m : CustomerManager) : List CustomerNetData :=
  m.customers.map (fun c =>
    { x := c.x, y := c.y, positionIndex := c.positionIndex
      order := c.order, originalOrder := c.originalOrder
      patience := c.patience, maxPatience := c.maxPatience
      satisfied := c.satisfied, angry := c.angry })

/-- The `Create new` branch of `updateFromNetwork` (`src/unnamed/part_004`
lines 289-299): `new Customer(data.x, data.y, data.originalOrder,
data.maxPatience)` followed by the field overwrites the source performs. -/
def customerFromNetData (d : CustomerNetData) : Customer :=
  let c := Customer.new d.x d.y d.originalOrder d.maxPatience
  { c with positionIndex := d.positionIndex, patience := d.patience
           satisfied := d.satisfied, angry := d.angry, order := d.order }

/-- The `Update existing` branch of `updateFromNetwork` (lines 281-288);
note that `originalOrder`, `maxPatience` and `positionIndex` are not
updated. -/
def updateCustomerFromNetData (c : Customer) (d : CustomerNetData) : Customer :=
  { c with x := d.x, y := d.y, order := d.order, patience := d.patience
           satisfied := d.satisfied, angry := d.angry }

/-- The `while (this.customers.length > customersData.length)` pop loop of
`updateFromNetwork` (lines 271-276): each iteration pops the last customer
and frees its seat.  The loop runs exactly `customers.length - n` times, the
first argument here; popping an empty list yields `undefined` and mutates
nothing, matching the `none` branch. -/
def popExcessCustomers : ℕ → CustomerManager → CustomerManager
  | 0, m => m
  | k + 1, m =>
    match m.customers.getLast? with
    | none => m
    | some removed =>
      popExcessCustomers k
        { m with customers := m.customers.dropLast
                 occupied := setOcc m.occupied removed.positionIndex false }

/-- The `customersData.forEach((data, index) => ...)` loop of
`updateFromNetwork` (lines 279-300): update in place while `index` is below
the current list length, otherwise construct and push a new customer and mark
its seat occupied. -/
def applyNetData : CustomerManager → ℕ → List CustomerNetData → CustomerManager
  | m, _, [] => m
  | m, idx, d :: rest =>
    let m' :=
      if h : idx < m.customers.length then
        let c' := updateCustomerFromNetData (m.customers.get ⟨idx, h⟩) d
        { m with customers := m.customers.set idx c' }
      else
        { m with customers := m.customers ++ [customerFromNetData d]
                 occupied := setOcc m.occupied d.positionIndex true }
    applyNetData m' (idx + 1) rest

/-- `CustomerManager.updateFromNetwork(customersData)` (client-side snapshot
application, lines 267-301); `none` models the falsy-guard early return. -/
def CustomerManager.updateFromNetwork (m : CustomerManager)
    (data : Option (List CustomerNetData)) : CustomerManager :=
  match data with
  | none => m
  | some ds => applyNetData (popExcessCustomers (m.customers.length - ds.length) m) 0 ds

/-- `LevelState` (`src/js/systems/NetworkManager.js`, LevelManager section). -/
inductive LevelState where
  | menu
  | playing
  | won
  | lost
deriving DecidableEq

/-- Difficulty configuration entries of `DifficultyConfig` (the rendering
`name`/`color` fields are out of scope). -/
structure DifficultyConfig where
  maxCustomers : ℕ
  customerSpawnDelay : ℚ
  customerPatience : ℚ

/-- `DifficultyConfig[Difficulty.EASY]`. -/
def easyConfig : DifficultyConfig := ⟨2, 4000, 25⟩

/-- `DifficultyConfig[Difficulty.MEDIUM]`. -/
def mediumConfig : DifficultyConfig := ⟨3, 3000, 20⟩

/-- `DifficultyConfig[Difficulty.HARD]`. -/
def hardConfig : DifficultyConfig := ⟨4, 2000, 15⟩

/-- `LevelManager` state (`src/js/systems/NetworkManager.js` lines 361-380). -/
structure LevelManager where
  state : LevelState
  levelDuration : ℚ
  timeRemaining : ℚ
  score : ℕ
  customersLost : ℕ
  maxLostCustomers : ℕ
deriving DecidableEq

/-- `LevelManager` constructor. -/
def initLevelManager : LevelManager :=
  { state := .menu, levelDuration := 60, timeRemaining := 0
    score := 0, customersLost := 0, maxLostCustomers := 5 }

/-- `LevelManager.startLevel(difficulty)` (the stored `difficulty`/`config`
references do not affect the match state machine). -/
def LevelManager.startLevel (lm : LevelManager) : LevelManager :=
  { lm with timeRemaining := lm.levelDuration, score := 0
            customersLost := 0, state := .playing }

/-- `LevelManager.update(deltaTime)` (lines 401-423): early return unless
playing; decrement time; loss check first (with early return), then time
expiry with clamping. -/
def LevelManager.update (lm : LevelManager) (dt : ℚ) : LevelManager :=
  if lm.state ≠ LevelState.playing then lm
  else
    let t := lm.timeRemaining - dt
    if lm.maxLostCustomers ≤ lm.customersLost then
      { lm with timeRemaining := t, state := .lost }
    else if t ≤ 0 then { lm with timeRemaining := 0, state := .won }
    else { lm with timeRemaining := t }

/-- `LevelManager.addScore(points)`. -/
def LevelManager.addScore (lm : LevelManager) (points : ℕ) : LevelManager :=
  { lm with score := lm.score + points }

/-- `LevelManager.addLostCustomer()`. -/
def LevelManager.addLostCustomer (lm : LevelManager) : LevelManager :=
  { lm with customersLost := lm.customersLost + 1 }

/-- `LevelManager.returnToMenu()`. -/
def LevelManager.returnToMenu (lm : LevelManager) : LevelManager :=
  { lm with state := .menu, score := 0, timeRemaining := 0, customersLost := 0 }

/-- The session-code alphabet of `NetworkManager.generateSessionCode`
(`src/js/systems/NetworkManager.js` line 42). -/
def sessionCodeChars : List Char :=
  "ABCDEFGHJKLMNPQRSTUVWXYZ23456789".toList

/-- `NetworkManager.generateSessionCode()`: six draws
`Math.floor(Math.random() * chars.length)`; the oracle `picks i` is reduced
mod the alphabet size exactly as the real draw always lies in
`[0, chars.length)`. -/
def generateSessionCode (picks : ℕ → ℕ) : List Char :=
  (List.range 6).map (fun i => sessionCodeChars.getD (picks i % sessionCodeChars.length) 'A')

/-- The transport's possible answer to one `new Peer(code)` attempt inside
`hostGame`. -/
inductive PeerOpenResult where
  | opened
  | errUnavailableId
  | errOther
deriving DecidableEq

/-- How a `hostGame()` invocation can settle. -/
inductive HostGameOutcome where
  | resolved
  | rejected
deriving DecidableEq

/-- `NetworkManager.hostGame()` retry structure (lines 53-105): attempt `k`
creates a peer and observes `events k`; on `open` the promise resolves, on a
non-collision error it rejects, and on an `unavailable-id` collision the
source destroys the peer and recursively calls `hostGame()` again — with no
retry counter of any kind.  `fuel` bounds how many recursive attempts we
unfold; `none` means the chain of retries has not settled within `fuel`
attempts. -/
def hostGameAttempts (events : ℕ → PeerOpenResult) : ℕ → ℕ → Option HostGameOutcome
  | 0, _ => none
  | fuel + 1, k =>
    match events k with
    | .opened => some .resolved
    | .errUnavailableId => hostGameAttempts events fuel (k + 1)
    | .errOther => some .rejected

/-- Folding a list of `(deltaTime, randomDraw)` ticks through
`CustomerManager.update`, i.e. advancing the simulation tick by tick. -/
def advanceTicks (m : CustomerManager) (ticks : List (ℚ × ℚ)) : CustomerManager :=
  ticks.foldl (fun s t => s.update t.1 t.2) m

lemma getD_mem_of_lt {α : Type _} (l : List α) (n : ℕ) (d : α) (h : n < l.length) :
    l.getD n d ∈ l := by
  induction l generalizing n with
  | nil => simp at h
  | cons a t ih =>
    cases n with
    | zero => simp
    | succ k =>
      simp only [List.getD_cons_succ]
      exact List.mem_cons_of_mem _ (ih _ (by simpa using h))

/-- C2: while `Playing`, once the abandoned-customer count has reached the
threshold of 5, the next `update` tick moves the match to `Lost` (and hence
not to `Won`) — the loss check runs before the time-expiry check, so this
holds whatever the remaining time is, in particular while it is still
strictly positive; and `update` leaves the state record untouched whenever
the match is not `Playing`. -/
theorem levelManager_loss_priority (lm : LevelManager) (dt : ℚ) :
    (lm.state = LevelState.playing → lm.maxLostCustomers = 5 →
      5 ≤ lm.customersLost → 0 < lm.timeRemaining →
      (lm.update dt).state = LevelState.lost ∧ (lm.update dt).state ≠ LevelState.won) ∧
    (lm.state ≠ LevelState.playing → lm.update dt = lm) := by
  constructor
  · intro hst hmax hlost _
    have hle : lm.maxLostCustomers ≤ lm.customersLost := by omega
    simp [LevelManager.update, hst, hle]
  · intro hst
    simp [LevelManager.update, hst]

theorem levelManager_loss_priority_witness :
    (((⟨.playing, 60, 10, 0, 5, 5⟩ : LevelManager).update 1).state = LevelState.lost ∧
      ((⟨.playing, 60, 10, 0, 5, 5⟩ : LevelManager).update 1).state ≠ LevelState.won) ∧
    ((⟨.menu, 60, 0, 0, 0, 5⟩ : LevelManager).update 1 = ⟨.menu, 60, 0, 0, 0, 5⟩) :=
  ⟨(levelManager_loss_priority ⟨.playing, 60, 10, 0, 5, 5⟩ 1).1 rfl rfl (by norm_num)
      (by norm_num),
   (levelManager_loss_priority ⟨.menu, 60, 0, 0, 0, 5⟩ 1).2 (by simp)⟩

/-- C3: a freshly constructed customer has
`maxPatience = basePatience + 5 * max 0 (totalItems - 1)`, its `patience`
starts at `maxPatience`, and in particular a one-item order gives
`basePatience` and a three-item order gives `basePatience + 10`. -/
theorem customer_constructor_patience (x y : ℚ) (order : Order) (b : ℚ) :
    (Customer.new x y order b).maxPatience
        = b + 5 * ((max 0 ((order.kebab : ℤ) + (order.drink : ℤ) - 1) : ℤ) : ℚ) ∧
    (Customer.new x y order b).patience = (Customer.new x y order b).maxPatience ∧
    (order.kebab + order.drink = 1 → (Customer.new x y order b).maxPatience = b) ∧
    (order.kebab + order.drink = 3 → (Customer.new x y order b).maxPatience = b + 10) := by
  refine ⟨?_, rfl, ?_, ?_⟩
  · simp only [Customer.new]
    push_cast
    ring
  · intro h
    have h1 : (max 0 ((order.kebab : ℤ) + (order.drink : ℤ) - 1)) = 0 := by omega
    simp [Customer.new, h1]
  · intro h
    have h1 : (max 0 ((order.kebab : ℤ) + (order.drink : ℤ) - 1)) = 2 := by omega
    simp only [Customer.new, h1]
    norm_num

theorem customer_constructor_patience_witness :
    (Customer.new 0 0 ⟨1, 0⟩ 15).maxPatience = 15 ∧
    (Customer.new 0 0 ⟨2, 1⟩ 15).maxPatience = 25 ∧
    (Customer.new 0 0 ⟨2, 1⟩ 15).patience = (Customer.new 0 0 ⟨2, 1⟩ 15).maxPatience :=
  ⟨(customer_constructor_patience 0 0 ⟨1, 0⟩ 15).2.2.1 rfl,
   by
    have h := (customer_constructor_patience 0 0 ⟨2, 1⟩ 15).2.2.2 rfl
    norm_num at h ⊢
    exact h,
   (customer_constructor_patience 0 0 ⟨2, 1⟩ 15).2.1⟩

/-- C7: serving with an empty customer list yields a structured failure
(`success = false`; when an item was actually offered the result also
carries the `wrongOrder` marker) and leaves the whole manager state —
customer list, seats, and all counters — unchanged.  The embedding is a
total function, so no exception can occur. -/
theorem tryServe_empty_no_recipient (m : CustomerManager) (pc : ℚ × ℚ)
    (item : Option Item) (h : m.customers = []) :
    (m.tryServeCustomer pc item).1.success = false ∧
    (m.tryServeCustomer pc item).2 = m ∧
    (∀ it, item = some it → (m.tryServeCustomer pc item).1.wrongOrder = true) := by
  cases item with
  | none => exact ⟨rfl, rfl, fun it hit => by cases hit⟩
  | some it =>
    have hfind : m.findNearestCustomerNeedingItem pc it.type = none := by
      simp [CustomerManager.findNearestCustomerNeedingItem, h]
    refine ⟨?_, ?_, ?_⟩ <;>
      simp [CustomerManager.tryServeCustomer, hfind]

theorem tryServe_empty_no_recipient_witness :
    ((initCustomerManager 0 0).tryServeCustomer (0, 0) (some ⟨ItemType.kebab⟩)).1.success
        = false ∧
    ((initCustomerManager 0 0).tryServeCustomer (0, 0) (some ⟨ItemType.kebab⟩)).2
        = initCustomerManager 0 0 ∧
    ((initCustomerManager 0 0).tryServeCustomer (0, 0) (some ⟨ItemType.kebab⟩)).1.wrongOrder
        = true := by
  have h := tryServe_empty_no_recipient (initCustomerManager 0 0) (0, 0)
    (some ⟨ItemType.kebab⟩) rfl
  exact ⟨h.1, h.2.1, h.2.2 ⟨ItemType.kebab⟩ rfl⟩

/-- C8 (evidence): under a transport that answers every hosting attempt with
an `unavailable-id` collision, the recursive retry chain of `hostGame` never
settles, no matter how many recursive attempts are unfolded — the source has
no retry budget and never surfaces a hard failure, contrary to the claimed
bounded-retry behaviour. -/
theorem hostGame_unbounded_retry (fuel k : ℕ) :
    hostGameAttempts (fun _ => PeerOpenResult.errUnavailableId) fuel k = none := by
  induction fuel generalizing k with
  | zero => rfl
  | succ n ih => simpa [hostGameAttempts] using ih (k + 1)

/-- C9 (counterexample): the session-code alphabet
`ABCDEFGHJKLMNPQRSTUVWXYZ23456789` does not contain 33 symbols. -/
theorem sessionCode_alphabet_not_33 : ¬ (sessionCodeChars.length = 33) := by decide

/-- C9 (amended): every generated session code has exactly 6 characters, each
drawn from the alphabet `ABCDEFGHJKLMNPQRSTUVWXYZ23456789`, which contains
32 symbols and excludes the ambiguous glyphs `I`, `O`, `0`, `1`. -/
theorem sessionCode_shape (picks : ℕ → ℕ) :
    (generateSessionCode picks).length = 6 ∧
    (∀ c ∈ generateSessionCode picks, c ∈ sessionCodeChars) ∧
    sessionCodeChars.length = 32 ∧
    ('I' ∉ sessionCodeChars ∧ 'O' ∉ sessionCodeChars ∧
      '0' ∉ sessionCodeChars ∧ '1' ∉ sessionCodeChars) := by
  refine ⟨by simp [generateSessionCode], ?_, by decide, by decide⟩
  intro c hc
  simp only [generateSessionCode, List.mem_map, List.mem_range] at hc
  obtain ⟨i, _, rfl⟩ := hc
  exact getD_mem_of_lt _ _ _ (Nat.mod_lt _ (by decide))

theorem sessionCode_shape_witness :
    (generateSessionCode (fun _ => 0)).length = 6 ∧ 'A' ∈ sessionCodeChars :=
  ⟨(sessionCode_shape (fun _ => 0)).1,
   (sessionCode_shape (fun _ => 0)).2.1 'A' (by decide)⟩

lemma drop_concat {α : Type _} (l : List α) (a : α) (n : ℕ) (h : n ≤ l.length) :
    (l ++ [a]).drop n = l.drop n ++ [a] := by
  induction l generalizing n with
  | nil =>
    have hn : n = 0 := by simpa using h
    subst hn; simp
  | cons x t ih =>
    cases n with
    | zero => simp
    | succ k =>
      simp only [List.cons_append, List.drop_succ_cons]
      exact ih k (by simpa using h)

lemma getD_map_lt {α β : Type _} (f : α → β) (l : List α) (n : ℕ) (d : β) (d' : α)
    (h : n < l.length) : (l.map f).getD n d = f (l.getD n d') := by
  rw [List.getD_eq_getElem?_getD, List.getD_eq_getElem?_getD, List.getElem?_map,
    List.getElem?_eq_getElem h]
  rfl

lemma popExcess_length (k : ℕ) :
    ∀ m : CustomerManager, k ≤ m.customers.length →
      (popExcessCustomers k m).customers.length = m.customers.length - k := by
  induction k with
  | zero => intro m _; simp [popExcessCustomers]
  | succ n ih =>
    intro m h
    cases hL : m.customers.getLast? with
    | none =>
      rw [List.getLast?_eq_none_iff] at hL
      rw [hL] at h
      simp at h
    | some a =>
      have hne : m.customers ≠ [] := by
        intro he; rw [he] at hL; simp at hL
      have hpos : 1 ≤ m.customers.length := by
        cases hc : m.customers with
        | nil => exact absurd hc hne
        | cons x t => simp [hc]
      simp only [popExcessCustomers, hL]
      rw [ih _ (by simp [List.length_dropLast]; omega)]
      simp [List.length_dropLast]
      omega

lemma popExcess_occ_mono (k : ℕ) :
    ∀ (m : CustomerManager) (p : ℕ), m.occupied p = false →
      (popExcessCustomers k m).occupied p = false := by
  induction k with
  | zero => intro m p h; simpa [popExcessCustomers] using h
  | succ n ih =>
    intro m p h
    cases hL : m.customers.getLast? with
    | none => simpa [popExcessCustomers, hL] using h
    | some a =>
      simp only [popExcessCustomers, hL]
      apply ih
      by_cases hp : p = a.positionIndex <;> simp [setOcc, hp, h]

lemma mem_drop_concat {α : Type _} (l : List α) (a : α) (n : ℕ) (c : α)
    (h : c ∈ (l ++ [a]).drop n) : c ∈ l.drop n ++ [a] := by
  by_cases hn : n ≤ l.length
  · rw [drop_concat _ _ _ hn] at h
    exact h
  · rw [List.drop_of_length_le (by simp; omega)] at h
    simp at h

lemma popExcess_occ_dropped (k : ℕ) :
    ∀ (m : CustomerManager) (c : Customer), k ≤ m.customers.length →
      c ∈ m.customers.drop (m.customers.length - k) →
      (popExcessCustomers k m).occupied c.positionIndex = false := by
  induction k with
  | zero =>
    intro m c _ hc
    rw [Nat.sub_zero, List.drop_length] at hc
    simp at hc
  | succ n ih =>
    intro m c hk hc
    cases hL : m.customers.getLast? with
    | none =>
      rw [List.getLast?_eq_none_iff] at hL
      rw [hL] at hk
      simp at hk
    | some a =>
      have hne : m.customers ≠ [] := by
        intro he; rw [he] at hL; simp at hL
      have hga : m.customers.getLast hne = a := by
        rw [List.getLast?_eq_getLast _ hne] at hL
        exact Option.some.inj hL
      have hcat : m.customers.dropLast ++ [a] = m.customers := by
        rw [← hga]; exact List.dropLast_append_getLast hne
      have hpos : 1 ≤ m.customers.length := by
        cases hcc : m.customers with
        | nil => exact absurd hcc hne
        | cons x t => simp [hcc]
      have hmem2 : c ∈ m.customers.dropLast.drop (m.customers.length - (n + 1)) ++ [a] := by
        apply mem_drop_concat
        rw [hcat]
        exact hc
      simp only [popExcessCustomers, hL]
      rcases List.mem_append.mp hmem2 with h1 | h2
      · apply ih
        · simp [List.length_dropLast]; omega
        · have hidx : m.customers.dropLast.length - n
              = m.customers.length - (n + 1) := by
            rw [List.length_dropLast]; omega
          rw [hidx]
          exact h1
      · have hca : c = a := by simpa using h2
        apply popExcess_occ_mono
        simp [setOcc, hca]

lemma applyNetData_occ :
    ∀ (ds : List CustomerNetData) (m : CustomerManager) (idx : ℕ),
      idx + ds.length ≤ m.customers.length →
      (applyNetData m idx ds).occupied = m.occupied := by
  intro ds
  induction ds with
  | nil => intro m idx _; rfl
  | cons d rest ih =>
    intro m idx h
    have hidx : idx < m.customers.length := by
      simp at h; omega
    simp only [applyNetData, dif_pos hidx]
    rw [ih _ (idx + 1) (by simp at h ⊢; omega)]

lemma applyNetData_spec :
    ∀ (ds : List CustomerNetData) (m : CustomerManager) (idx : ℕ),
      idx ≤ m.customers.length →
      (applyNetData m idx ds).customers.length
          = max m.customers.length (idx + ds.length) ∧
      (∀ i, i < idx →
        (applyNetData m idx ds).customers.getD i defaultCustomer
          = m.customers.getD i defaultCustomer) ∧
      (∀ i, m.customers.length ≤ i → i < idx + ds.length →
        (applyNetData m idx ds).customers.getD i defaultCustomer
          = customerFromNetData (ds.getD (i - idx) defaultNetData)) := by
  intro ds
  induction ds with
  | nil =>
    intro m idx h
    refine ⟨by simp [applyNetData]; omega, fun i _ => rfl, fun i hi1 hi2 => ?_⟩
    exfalso
    simp at hi2
    omega
  | cons d rest ih =>
    intro m idx h
    by_cases hidx : idx < m.customers.length
    · simp only [applyNetData, dif_pos hidx]
      obtain ⟨ha, hb, hc⟩ := ih { m with customers := m.customers.set idx (updateCustomerFromNetData (m.customers.get ⟨idx, hidx⟩) d) } (idx + 1) (by simp; omega)
      refine ⟨?_, ?_, ?_⟩
      · rw [ha]
        simp
        omega
      · intro i hi
        rw [hb i (by omega)]
        show (m.customers.set idx (updateCustomerFromNetData (m.customers.get ⟨idx, hidx⟩) d)).getD i defaultCustomer = m.customers.getD i defaultCustomer
        simp only [List.getD_eq_getElem?_getD]
        rw [List.getElem?_set_ne (by omega)]
      · intro i hi1 hi2
        rw [hc i (by simp; omega) (by simp at hi2 ⊢; omega)]
        have hshift : i - idx = (i - (idx + 1)) + 1 := by omega
        rw [hshift, List.getD_cons_succ]
    · have hidxe : idx = m.customers.length := by omega
      simp only [applyNetData, dif_neg hidx]
      obtain ⟨ha, hb, hc⟩ := ih { m with customers := m.customers ++ [customerFromNetData d], occupied := setOcc m.occupied d.positionIndex true } (idx + 1) (by simp; omega)
      refine ⟨?_, ?_, ?_⟩
      · rw [ha]
        simp
        omega
      · intro i hi
        rw [hb i (by omega)]
        show (m.customers ++ [customerFromNetData d]).getD i defaultCustomer = m.customers.getD i defaultCustomer
        simp only [List.getD_eq_getElem?_getD]
        rw [List.getElem?_append_left (by omega)]
      · intro i hi1 hi2
        rcases Nat.eq_or_lt_of_le hi1 with he | hlt
        · rw [hb i (by omega)]
          have hi0 : i - idx = 0 := by omega
          rw [hi0, List.getD_cons_zero]
          show (m.customers ++ [customerFromNetData d]).getD i defaultCustomer = customerFromNetData d
          simp only [List.getD_eq_getElem?_getD]
          rw [List.getElem?_append_right (by omega)]
          have hzero : i - m.customers.length = 0 := by omega
          rw [hzero]
          rfl
        · rw [hc i (by simp; omega) (by simp at hi2 ⊢; omega)]
          have hshift : i - idx = (i - (idx + 1)) + 1 := by omega
          rw [hshift, List.getD_cons_succ]

/-- C4: applying a `gameState` snapshot whose customer array is shorter than
the local list leaves the client with exactly the incoming number of
customers, and the seat index of every dropped (local-suffix) customer is
marked unoccupied.  The seat-validity hypothesis restricts to states in
which the source's seat-array writes are in bounds. -/
theorem updateFromNetwork_shrink (m : CustomerManager) (ds : List CustomerNetData)
    (hlt : ds.length < m.customers.length)
    (_hseats : ∀ c ∈ m.customers, c.positionIndex < numPositions) :
    (m.updateFromNetwork (some ds)).customers.length = ds.length ∧
    ∀ c ∈ m.customers.drop ds.length,
      (m.updateFromNetwork (some ds)).occupied c.positionIndex = false := by
  have hk : m.customers.length - ds.length ≤ m.customers.length := by omega
  have hplen := popExcess_length (m.customers.length - ds.length) m hk
  have hplen' : (popExcessCustomers (m.customers.length - ds.length) m).customers.length
      = ds.length := by omega
  obtain ⟨ha, _, _⟩ := applyNetData_spec ds
    (popExcessCustomers (m.customers.length - ds.length) m) 0 (by omega)
  have hocc := applyNetData_occ ds
    (popExcessCustomers (m.customers.length - ds.length) m) 0 (by omega)
  constructor
  · show (applyNetData (popExcessCustomers (m.customers.length - ds.length) m) 0 ds).customers.length = ds.length
    rw [ha, hplen']
    omega
  · intro c hc
    show (applyNetData (popExcessCustomers (m.customers.length - ds.length) m) 0 ds).occupied c.positionIndex = false
    rw [hocc]
    apply popExcess_occ_dropped _ _ _ hk
    have hdropidx : m.customers.length - (m.customers.length - ds.length) = ds.length := by
      omega
    rw [hdropidx]
    exact hc

def c4cust (i : ℕ) : Customer :=
  { Customer.new 0 0 ⟨1, 0⟩ 10 with positionIndex := i }

def c4client : CustomerManager :=
  { initCustomerManager 0 0 with
      customers := [c4cust 0, c4cust 1, c4cust 2]
      occupied := fun j => decide (j < 3) }

def c4data : List CustomerNetData := [defaultNetData, defaultNetData]

theorem updateFromNetwork_shrink_witness :
    (c4client.updateFromNetwork (some c4data)).customers.length = 2 ∧
    (c4client.updateFromNetwork (some c4data)).occupied 2 = false := by
  have h := updateFromNetwork_shrink c4client c4data (by decide) (by decide)
  refine ⟨h.1, h.2 (c4cust 2) ?_⟩
  show c4cust 2 ∈ c4client.customers.drop c4data.length
  simp [c4client, c4data]

/-- C5: serializing the host's customer list with `getCustomersData` and
applying the snapshot to a client with an empty customer list reconstructs a
list of the same length whose remaining orders, original orders and patience
values all equal the host's (exactly, in the rational model — hence within
any floating tolerance). -/
theorem snapshot_roundTrip (host client : CustomerManager)
    (h : client.customers = []) :
    (client.updateFromNetwork (some host.getCustomersData)).customers.length
        = host.customers.length ∧
    ∀ i, i < host.customers.length →
      ((client.updateFromNetwork (some host.getCustomersData)).customers.getD i
          defaultCustomer).order = (host.customers.getD i defaultCustomer).order ∧
      ((client.updateFromNetwork (some host.getCustomersData)).customers.getD i
          defaultCustomer).originalOrder
        = (host.customers.getD i defaultCustomer).originalOrder ∧
      ((client.updateFromNetwork (some host.getCustomersData)).customers.getD i
          defaultCustomer).patience
        = (host.customers.getD i defaultCustomer).patience := by
  have hc0 : client.customers.length = 0 := by rw [h]; rfl
  have hdl : host.getCustomersData.length = host.customers.length := by
    simp [CustomerManager.getCustomersData]
  have hzero : client.customers.length - host.getCustomersData.length = 0 := by omega
  have hpop : popExcessCustomers
      (client.customers.length - host.getCustomersData.length) client = client := by
    rw [hzero]
    rfl
  obtain ⟨ha, _, hcr⟩ := applyNetData_spec host.getCustomersData client 0 (by omega)
  have hun : client.updateFromNetwork (some host.getCustomersData)
      = applyNetData client 0 host.getCustomersData := by
    show applyNetData (popExcessCustomers
      (client.customers.length - host.getCustomersData.length) client) 0
        host.getCustomersData = _
    rw [hpop]
  rw [hun]
  constructor
  · rw [ha, hdl]
    omega
  · intro i hi
    have hget := hcr i (by omega) (by omega)
    rw [Nat.sub_zero] at hget
    have hmap : host.getCustomersData.getD i defaultNetData
        = { x := (host.customers.getD i defaultCustomer).x
            y := (host.customers.getD i defaultCustomer).y
            positionIndex := (host.customers.getD i defaultCustomer).positionIndex
            order := (host.customers.getD i defaultCustomer).order
            originalOrder := (host.customers.getD i defaultCustomer).originalOrder
            patience := (host.customers.getD i defaultCustomer).patience
            maxPatience := (host.customers.getD i defaultCustomer).maxPatience
            satisfied := (host.customers.getD i defaultCustomer).satisfied
            angry := (host.customers.getD i defaultCustomer).angry } := by
      exact getD_map_lt _ host.customers i defaultNetData defaultCustomer hi
    rw [hget, hmap]
    exact ⟨rfl, rfl, rfl⟩

def c5hostCustA : Customer :=
  { Customer.new 10 20 ⟨1, 0⟩ 25 with positionIndex := 0, patience := 9 }

def c5hostCustB : Customer :=
  { Customer.new 30 20 ⟨2, 1⟩ 25 with positionIndex := 1, patience := 17 }

def c5host : CustomerManager :=
  { initCustomerManager 0 0 with customers := [c5hostCustA, c5hostCustB] }

theorem snapshot_roundTrip_witness :
    ((initCustomerManager 0 0).updateFromNetwork
        (some c5host.getCustomersData)).customers.length = 2 ∧
    (((initCustomerManager 0 0).updateFromNetwork
        (some c5host.getCustomersData)).customers.getD 1 defaultCustomer).order
      = ⟨2, 1⟩ ∧
    (((initCustomerManager 0 0).updateFromNetwork
        (some c5host.getCustomersData)).customers.getD 1 defaultCustomer).patience
      = 17 := by
  have h := snapshot_roundTrip c5host (initCustomerManager 0 0) rfl
  obtain ⟨h1, h2⟩ := h
  refine ⟨h1, ?_, ?_⟩
  · rw [(h2 1 (by decide)).1]
    decide
  · rw [(h2 1 (by decide)).2.2]
    decide

/-- C10: a snapshot entry applied at an index beyond the current local list
goes through the `Create new` branch: the transmitted `patience`, remaining
`order` and `originalOrder` are copied verbatim, but `maxPatience` is
re-derived by the constructor from the transmitted value — it equals the
transmitted `maxPatience` plus `5 * max 0 (totalItems - 1)` over the
original order, so it is preserved exactly when the original order has at
most one item. -/
theorem netCreate_fields (m : CustomerManager) (ds : List CustomerNetData) (i : ℕ)
    (h1 : m.customers.length ≤ i) (h2 : i < ds.length) :
    ((m.updateFromNetwork (some ds)).customers.getD i defaultCustomer).maxPatience
        = (ds.getD i defaultNetData).maxPatience
          + 5 * ((max 0 (((ds.getD i defaultNetData).originalOrder.kebab : ℤ)
              + ((ds.getD i defaultNetData).originalOrder.drink : ℤ) - 1) : ℤ) : ℚ) ∧
    ((m.updateFromNetwork (some ds)).customers.getD i defaultCustomer).patience
        = (ds.getD i defaultNetData).patience ∧
    ((m.updateFromNetwork (some ds)).customers.getD i defaultCustomer).order
        = (ds.getD i defaultNetData).order ∧
    ((m.updateFromNetwork (some ds)).customers.getD i defaultCustomer).originalOrder
        = (ds.getD i defaultNetData).originalOrder ∧
    (((m.updateFromNetwork (some ds)).customers.getD i defaultCustomer).maxPatience
        = (ds.getD i defaultNetData).maxPatience
      ↔ (ds.getD i defaultNetData).originalOrder.kebab
          + (ds.getD i defaultNetData).originalOrder.drink ≤ 1) := by
  have hzero : m.customers.length - ds.length = 0 := by omega
  have hun : m.updateFromNetwork (some ds) = applyNetData m 0 ds := by
    show applyNetData (popExcessCustomers (m.customers.length - ds.length) m) 0 ds = _
    rw [hzero]
    rfl
  obtain ⟨_, _, hcr⟩ := applyNetData_spec ds m 0 (by omega)
  rw [hun]
  have hget := hcr i (by omega) (by omega)
  rw [Nat.sub_zero] at hget
  rw [hget]
  set d := ds.getD i defaultNetData with hd
  refine ⟨?_, rfl, rfl, rfl, ?_⟩
  · show (Customer.new d.x d.y d.originalOrder d.maxPatience).maxPatience = _
    simp only [Customer.new]
    push_cast
    ring
  · show (Customer.new d.x d.y d.originalOrder d.maxPatience).maxPatience
        = d.maxPatience ↔ _
    simp only [Customer.new]
    constructor
    · intro he
      have hx : ((max 0 ((d.originalOrder.kebab : ℤ) + (d.originalOrder.drink : ℤ) - 1) * 5 : ℤ) : ℚ) = 0 := by
        linarith [he]
      have hz : (max 0 ((d.originalOrder.kebab : ℤ) + (d.originalOrder.drink : ℤ) - 1) * 5 : ℤ) = 0 := by
        exact_mod_cast hx
      omega
    · intro hle
      have hz : (max 0 ((d.originalOrder.kebab : ℤ) + (d.originalOrder.drink : ℤ) - 1) * 5 : ℤ) = 0 := by
        omega
      rw [hz]
      norm_num

def c10data : List CustomerNetData :=
  [defaultNetData,
   { x := 0, y := 0, positionIndex := 1, order := ⟨1, 1⟩, originalOrder := ⟨2, 1⟩
     patience := 11, maxPatience := 20, satisfied := false, angry := false }]

def c10client : CustomerManager :=
  { initCustomerManager 0 0 with customers := [c4cust 0] }

theorem netCreate_fields_witness :
    ((c10client.updateFromNetwork (some c10data)).customers.getD 1
        defaultCustomer).maxPatience = 30 ∧
    ((c10client.updateFromNetwork (some c10data)).customers.getD 1
        defaultCustomer).patience = 11 ∧
    ¬ ((c10client.updateFromNetwork (some c10data)).customers.getD 1
        defaultCustomer).maxPatience = 20 := by
  have h := netCreate_fields c10client c10data 1 (by decide) (by decide)
  refine ⟨?_, ?_, ?_⟩
  · rw [h.1]
    decide
  · rw [h.2.1]
    decide
  · intro hcon
    have h20 : (c10data.getD 1 defaultNetData).maxPatience = 20 := by decide
    have hmp := h.2.2.2.2.mp (hcon.trans h20.symm)
    revert hmp
    decide

/-- C6 (counterexample): starting a Medium match and advancing one tick of
3.0 time-units with the order draw `r = 13` (which selects the
`{kebab: 2, drink: 1}` entry of the generator's table) spawns exactly one
customer, but its patience is `27`, not approximately `17`: the configured
base patience is extended by the order-size bonus before the 3.0 units of
decay. -/
theorem medium_scenario_cex :
    (advanceTicks ((initCustomerManager 0 0).configure mediumConfig.maxCustomers
        mediumConfig.customerSpawnDelay mediumConfig.customerPatience)
        [(3, 13)]).customers.length = 1 ∧
    ((advanceTicks ((initCustomerManager 0 0).configure mediumConfig.maxCustomers
        mediumConfig.customerSpawnDelay mediumConfig.customerPatience)
        [(3, 13)]).customers.getD 0 defaultCustomer).patience = 27 ∧
    ¬ ((advanceTicks ((initCustomerManager 0 0).configure mediumConfig.maxCustomers
        mediumConfig.customerSpawnDelay mediumConfig.customerPatience)
        [(3, 13)]).customers.getD 0 defaultCustomer).patience = 17 := by
  refine ⟨by decide, by decide, by decide⟩

lemma new_patience_ge (x y b : ℚ) (ord : Order) :
    b ≤ (Customer.new x y ord b).patience := by
  simp only [Customer.new]
  have h5 : (0 : ℤ) ≤ max 0 ((ord.kebab : ℤ) + (ord.drink : ℤ) - 1) * 5 := by positivity
  have : (0 : ℚ) ≤ ((max 0 ((ord.kebab : ℤ) + (ord.drink : ℤ) - 1) * 5 : ℤ) : ℚ) := by
    exact_mod_cast h5
  linarith

lemma update_single_waiting (m : CustomerManager) (c : Customer) (dt r : ℚ)
    (hcs : m.customers = [c])
    (hauto : m.autoSpawn = true)
    (hdelay : m.spawnDelay = 3000)
    (ht : m.timeSinceLastSpawn + dt * 1000 < 3000)
    (hsat : c.satisfied = false) (hang : c.angry = false)
    (hp : dt < c.patience) :
    (m.update dt r).customers = [{ c with patience := c.patience - dt }] ∧
    (m.update dt r).timeSinceLastSpawn = m.timeSinceLastSpawn + dt * 1000 ∧
    (m.update dt r).autoSpawn = true ∧
    (m.update dt r).spawnDelay = 3000 := by
  have hcu : Customer.update dt c = { c with patience := c.patience - dt } := by
    simp [Customer.update, hsat, hang, show ¬ (c.patience - dt ≤ 0) by linarith]
  have hnospawn : ¬ ((3000 : ℚ) ≤ m.timeSinceLastSpawn + dt * 1000) := by linarith
  refine ⟨?_, ?_, ?_, ?_⟩ <;>
    simp [CustomerManager.update, hauto, hdelay, hnospawn, hcs, hcu, hang]

lemma new_satisfied (x y b : ℚ) (ord : Order) :
    (Customer.new x y ord b).satisfied = false := rfl

lemma new_angry (x y b : ℚ) (ord : Order) :
    (Customer.new x y ord b).angry = false := rfl

lemma customer_update_waiting (dt : ℚ) (c : Customer)
    (hsat : c.satisfied = false) (hang : c.angry = false) (hp : dt < c.patience) :
    Customer.update dt c = { c with patience := c.patience - dt } := by
  simp [Customer.update, hsat, hang, show ¬ (c.patience - dt ≤ 0) by linarith]

lemma new_patience_eq_max (x y b : ℚ) (ord : Order) :
    (Customer.new x y ord b).patience = (Customer.new x y ord b).maxPatience := rfl

lemma new_maxPatience (x y b : ℚ) (ord : Order) :
    (Customer.new x y ord b).maxPatience
      = b + 5 * ((max 0 ((ord.kebab : ℤ) + (ord.drink : ℤ) - 1) : ℤ) : ℚ) := by
  simp only [Customer.new]
  push_cast
  ring

lemma update_spawn_fresh (m : CustomerManager) (dt r : ℚ)
    (hcs : m.customers = [])
    (hauto : m.autoSpawn = true)
    (hready : m.spawnDelay ≤ m.timeSinceLastSpawn + dt * 1000)
    (hfree : m.findFreePosition = some 0)
    (hmax : 0 < m.maxCustomers)
    (hdt : dt < m.customerPatience) :
    (m.update dt r).customers
      = [{ Customer.new (m.posX 0) m.posY (Customer.generateRandomOrder r)
            m.customerPatience with
            positionIndex := 0
            patience := (Customer.new (m.posX 0) m.posY (Customer.generateRandomOrder r)
              m.customerPatience).patience - dt }] ∧
    (m.update dt r).timeSinceLastSpawn = 0 ∧
    (m.update dt r).autoSpawn = true ∧
    (m.update dt r).spawnDelay = m.spawnDelay := by
  have hwait : m.getWaitingCount < m.maxCustomers := by
    unfold CustomerManager.getWaitingCount
    rw [hcs]
    simpa using hmax
  have hpat : dt < (Customer.new (m.posX 0) m.posY (Customer.generateRandomOrder r)
      m.customerPatience).patience :=
    lt_of_lt_of_le hdt (new_patience_ge _ _ _ _)
  have hspawn : m.spawnCustomer r
      = { m with occupied := setOcc m.occupied 0 true
                 customers := [{ Customer.new (m.posX 0) m.posY
                   (Customer.generateRandomOrder r) m.customerPatience with
                   positionIndex := 0 }] } := by
    simp [CustomerManager.spawnCustomer, hfree, hcs]
  have hcu := customer_update_waiting dt
    { Customer.new (m.posX 0) m.posY (Customer.generateRandomOrder r)
        m.customerPatience with positionIndex := 0 }
    rfl rfl hpat
  refine ⟨?_, ?_, ?_, ?_⟩ <;>
    simp [CustomerManager.update, hauto, hready, hwait, hspawn, hcu]

lemma advance_no_spawn (rest : List (ℚ × ℚ)) :
    ∀ (m : CustomerManager) (c : Customer),
      m.customers = [c] → m.autoSpawn = true → m.spawnDelay = 3000 →
      c.satisfied = false → c.angry = false →
      (∀ t ∈ rest, 0 < t.1) →
      m.timeSinceLastSpawn + (rest.map Prod.fst).sum * 1000 < 3000 →
      0 ≤ m.timeSinceLastSpawn →
      (rest.map Prod.fst).sum < c.patience →
      (advanceTicks m rest).customers
        = [{ c with patience := c.patience - (rest.map Prod.fst).sum }] := by
  induction rest with
  | nil =>
    intro m c hcs _ _ _ _ _ _ _ _
    simpa [advanceTicks] using hcs
  | cons td rest ih =>
    obtain ⟨dt, r⟩ := td
    intro m c hcs hauto hdelay hsat hang hpos ht h0 hp
    have hdtpos : 0 < dt := hpos (dt, r) (by simp)
    have hrestpos : ∀ t ∈ rest, 0 < t.1 := fun t ht' => hpos t (by simp [ht'])
    have hsumnn : 0 ≤ (rest.map Prod.fst).sum := by
      apply List.sum_nonneg
      intro a ha
      obtain ⟨t, htm, rfl⟩ := List.mem_map.mp ha
      exact le_of_lt (hrestpos t htm)
    have hsumc : (((dt, r) :: rest).map Prod.fst).sum
        = dt + (rest.map Prod.fst).sum := by simp
    rw [hsumc] at ht hp
    have h1 := update_single_waiting m c dt r hcs hauto hdelay
      (by nlinarith) hsat hang (by linarith)
    have hstep : advanceTicks m ((dt, r) :: rest) = advanceTicks (m.update dt r) rest := by
      simp [advanceTicks]
    rw [hstep]
    rw [ih (m.update dt r) { c with patience := c.patience - dt } h1.1 h1.2.2.1 h1.2.2.2
      hsat hang hrestpos (by rw [h1.2.1]; nlinarith) (by rw [h1.2.1]; nlinarith)
      (by show (rest.map Prod.fst).sum < c.patience - dt; linarith)]
    rw [hsumc]
    congr 1
    simp [sub_sub]

/-- C6 (amended): on Medium difficulty (cap 3, spawn interval 3000 ms, base
patience 20), advancing the fresh match by positive ticks totalling exactly
3.0 time-units spawns exactly one customer (the spawn timer is primed by
`configure`, so the spawn fires on the first tick and no second interval
completes).  That customer's patience is `maxPatience - 3`, where
`maxPatience = 20 + 5 * max 0 (totalItems - 1)` over the randomly generated
order — so it equals `17.0` exactly when the generated order has a single
item, and exceeds it by the order-size bonus otherwise. -/
theorem medium_scenario_amended (sx sy : ℚ) (ticks : List (ℚ × ℚ))
    (hne : ticks ≠ [])
    (hpos : ∀ t ∈ ticks, 0 < t.1)
    (hsum : (ticks.map Prod.fst).sum = 3) :
    (advanceTicks ((initCustomerManager sx sy).configure 3 3000 20) ticks).customers.length
        = 1 ∧
    ∀ c ∈ (advanceTicks ((initCustomerManager sx sy).configure 3 3000 20) ticks).customers,
      c.patience = c.maxPatience - 3 ∧
      c.maxPatience = 20 + 5 * ((max 0 ((c.originalOrder.kebab : ℤ)
          + (c.originalOrder.drink : ℤ) - 1) : ℤ) : ℚ) ∧
      (c.getTotalOrderItems = 1 → c.patience = 17) := by
  match ticks, hne with
  | (dt, r) :: rest, _ =>
  have hdtpos : 0 < dt := hpos (dt, r) (by simp)
  have hrestpos : ∀ t ∈ rest, 0 < t.1 := fun t ht' => hpos t (by simp [ht'])
  have hsumnn : 0 ≤ (rest.map Prod.fst).sum := by
    apply List.sum_nonneg
    intro a ha
    obtain ⟨t, htm, rfl⟩ := List.mem_map.mp ha
    exact le_of_lt (hrestpos t htm)
  have hsumc : (((dt, r) :: rest).map Prod.fst).sum = dt + (rest.map Prod.fst).sum := by
    simp
  rw [hsumc] at hsum
  have hdt3 : dt ≤ 3 := by linarith
  have hrest3 : (rest.map Prod.fst).sum = 3 - dt := by linarith
  have hfirst := update_spawn_fresh ((initCustomerManager sx sy).configure 3 3000 20)
    dt r rfl rfl (by show (3000:ℚ) ≤ 3000 + dt * 1000; nlinarith) rfl
    (by show (0:ℕ) < 3; norm_num) (by show dt < 20; linarith)
  have hstep : advanceTicks ((initCustomerManager sx sy).configure 3 3000 20)
      ((dt, r) :: rest)
      = advanceTicks (((initCustomerManager sx sy).configure 3 3000 20).update dt r)
          rest := by
    simp [advanceTicks]
  have hpatnew : (20 : ℚ) ≤ (Customer.new
      (((initCustomerManager sx sy).configure 3 3000 20).posX 0)
      ((initCustomerManager sx sy).configure 3 3000 20).posY
      (Customer.generateRandomOrder r) 20).patience := new_patience_ge _ _ _ _
  have hfin : (advanceTicks ((initCustomerManager sx sy).configure 3 3000 20)
      ((dt, r) :: rest)).customers
      = [{ Customer.new (((initCustomerManager sx sy).configure 3 3000 20).posX 0)
            ((initCustomerManager sx sy).configure 3 3000 20).posY
            (Customer.generateRandomOrder r) 20 with
            positionIndex := 0
            patience := (Customer.new
              (((initCustomerManager sx sy).configure 3 3000 20).posX 0)
              ((initCustomerManager sx sy).configure 3 3000 20).posY
              (Customer.generateRandomOrder r) 20).patience - dt
                - (rest.map Prod.fst).sum }] := by
    rw [hstep]
    rw [advance_no_spawn rest _ _ hfirst.1 hfirst.2.2.1 hfirst.2.2.2 rfl rfl hrestpos
      (by rw [hfirst.2.1]; rw [hrest3]; nlinarith)
      (by rw [hfirst.2.1])
      (by show (rest.map Prod.fst).sum
            < (Customer.new (((initCustomerManager sx sy).configure 3 3000 20).posX 0)
                ((initCustomerManager sx sy).configure 3 3000 20).posY
                (Customer.generateRandomOrder r) 20).patience - dt
          rw [hrest3]; linarith)]
    rfl
  rw [hfin]
  refine ⟨rfl, ?_⟩
  intro c hc
  have hceq := List.mem_singleton.mp hc
  subst hceq
  dsimp only
  refine ⟨?_, ?_, ?_⟩
  · rw [new_patience_eq_max, hrest3]
    ring
  · rw [new_maxPatience]
    rfl
  · intro htot
    have htot' : (Customer.generateRandomOrder r).kebab
        + (Customer.generateRandomOrder r).drink = 1 := htot
    have hmax0 : max 0 (((Customer.generateRandomOrder r).kebab : ℤ)
        + ((Customer.generateRandomOrder r).drink : ℤ) - 1) = 0 := by omega
    rw [new_patience_eq_max, new_maxPatience, hmax0, hrest3]
    push_cast
    ring

theorem medium_scenario_amended_witness :
    (advanceTicks ((initCustomerManager 0 0).configure 3 3000 20)
        [(3, 1)]).customers.length = 1 ∧
    ∀ c ∈ (advanceTicks ((initCustomerManager 0 0).configure 3 3000 20)
        [(3, 1)]).customers, c.patience = 17 := by
  have h := medium_scenario_amended 0 0 [(3, 1)] (by simp)
    (by intro t ht; simp at ht; rw [ht]; norm_num) (by norm_num)
  refine ⟨h.1, ?_⟩
  intro c hc
  refine (h.2 c hc).2.2 ?_
  rw [show (advanceTicks ((initCustomerManager 0 0).configure 3 3000 20)
        [(3, 1)]).customers
      = [(advanceTicks ((initCustomerManager 0 0).configure 3 3000 20)
          [(3, 1)]).customers.getD 0 defaultCustomer] by decide] at hc
  rw [List.mem_singleton.mp hc]
  decide

lemma eligibleB_eq (c : Customer) (t : ItemType) :
    eligibleB c t = (!(c.satisfied || c.angry) && c.needsItem t) := by
  simp [eligibleB, Bool.not_or, Bool.and_assoc]

lemma findGo_cons_skip (pc : ℚ × ℚ) (t : ItemType) (c : Customer) (rest : List Customer)
    (i : ℕ) (best : Option ((ℕ × Customer) × ℚ))
    (h : (c.satisfied || c.angry) = true) :
    findGo pc t (c :: rest) i best = findGo pc t rest (i + 1) best := by
  simp [findGo, h]

lemma findGo_cons_noneed (pc : ℚ × ℚ) (t : ItemType) (c : Customer) (rest : List Customer)
    (i : ℕ) (best : Option ((ℕ × Customer) × ℚ))
    (h1 : (c.satisfied || c.angry) = false) (h2 : c.needsItem t = false) :
    findGo pc t (c :: rest) i best = findGo pc t rest (i + 1) best := by
  simp [findGo, h1, h2]

lemma findGo_cons_elig_none (pc : ℚ × ℚ) (t : ItemType) (c : Customer) (rest : List Customer)
    (i : ℕ) (h1 : (c.satisfied || c.angry) = false) (h2 : c.needsItem t = true) :
    findGo pc t (c :: rest) i none
      = findGo pc t rest (i + 1) (some ((i, c), distSq pc c)) := by
  simp [findGo, h1, h2]

lemma findGo_cons_elig_lt (pc : ℚ × ℚ) (t : ItemType) (c : Customer) (rest : List Customer)
    (i : ℕ) (jb : ℕ × Customer) (mn : ℚ)
    (h1 : (c.satisfied || c.angry) = false) (h2 : c.needsItem t = true)
    (h3 : distSq pc c < mn) :
    findGo pc t (c :: rest) i (some (jb, mn))
      = findGo pc t rest (i + 1) (some ((i, c), distSq pc c)) := by
  simp [findGo, h1, h2, h3]

lemma findGo_cons_elig_ge (pc : ℚ × ℚ) (t : ItemType) (c : Customer) (rest : List Customer)
    (i : ℕ) (jb : ℕ × Customer) (mn : ℚ)
    (h1 : (c.satisfied || c.angry) = false) (h2 : c.needsItem t = true)
    (h3 : ¬ distSq pc c < mn) :
    findGo pc t (c :: rest) i (some (jb, mn)) = findGo pc t rest (i + 1) (some (jb, mn)) := by
  simp [findGo, h1, h2, h3]

lemma findGo_some_spec (pc : ℚ × ℚ) (t : ItemType) :
    ∀ (cs : List Customer) (i : ℕ) (jb : ℕ × Customer) (mn : ℚ),
      mn = distSq pc jb.2 → jb.1 < i →
      ∃ res mres, findGo pc t cs i (some (jb, mn)) = some (res, mres) ∧
        mres = distSq pc res.2 ∧ mres ≤ mn ∧
        (res = jb ∨ (i ≤ res.1 ∧ res.1 - i < cs.length ∧
          cs.getD (res.1 - i) defaultCustomer = res.2 ∧ eligibleB res.2 t = true ∧
          mres < mn)) ∧
        (∀ k, k < cs.length → eligibleB (cs.getD k defaultCustomer) t = true →
          i + k < res.1 → mres < distSq pc (cs.getD k defaultCustomer)) ∧
        (∀ k, k < cs.length → eligibleB (cs.getD k defaultCustomer) t = true →
          mres ≤ distSq pc (cs.getD k defaultCustomer)) := by
  intro cs
  induction cs with
  | nil =>
    intro i jb mn hmn hji
    exact ⟨jb, mn, rfl, hmn, le_refl _, Or.inl rfl, by simp, by simp⟩
  | cons c rest ih =>
    intro i jb mn hmn hji
    cases hterm : (c.satisfied || c.angry) with
    | true =>
      have hel : eligibleB c t = false := by
        rw [eligibleB_eq, hterm]
        rfl
      obtain ⟨res, mres, heq, h1, h2, h3, h4, h5⟩ := ih (i + 1) jb mn hmn (by omega)
      refine ⟨res, mres, ?_, h1, h2, ?_, ?_, ?_⟩
      · rw [findGo_cons_skip pc t c rest i _ hterm]
        exact heq
      · rcases h3 with h3 | ⟨ha, hb, hc, hd, he⟩
        · exact Or.inl h3
        · refine Or.inr ⟨by omega, by simp; omega, ?_, hd, he⟩
          have hsh : res.1 - i = (res.1 - (i + 1)) + 1 := by omega
          rw [hsh, List.getD_cons_succ]
          exact hc
      · intro k hk hel' hik
        cases k with
        | zero =>
          rw [List.getD_cons_zero, hel] at hel'
          cases hel'
        | succ k' =>
          rw [List.getD_cons_succ] at hel' ⊢
          exact h4 k' (by simpa using hk) hel' (by omega)
      · intro k hk hel'
        cases k with
        | zero =>
          rw [List.getD_cons_zero, hel] at hel'
          cases hel'
        | succ k' =>
          rw [List.getD_cons_succ] at hel' ⊢
          exact h5 k' (by simpa using hk) hel'
    | false =>
      cases hneed : c.needsItem t with
      | false =>
        have hel : eligibleB c t = false := by
          rw [eligibleB_eq, hterm, hneed]
          rfl
        obtain ⟨res, mres, heq, h1, h2, h3, h4, h5⟩ := ih (i + 1) jb mn hmn (by omega)
        refine ⟨res, mres, ?_, h1, h2, ?_, ?_, ?_⟩
        · rw [findGo_cons_noneed pc t c rest i _ hterm hneed]
          exact heq
        · rcases h3 with h3 | ⟨ha, hb, hc, hd, he⟩
          · exact Or.inl h3
          · refine Or.inr ⟨by omega, by simp; omega, ?_, hd, he⟩
            have hsh : res.1 - i = (res.1 - (i + 1)) + 1 := by omega
            rw [hsh, List.getD_cons_succ]
            exact hc
        · intro k hk hel' hik
          cases k with
          | zero =>
            rw [List.getD_cons_zero, hel] at hel'
            cases hel'
          | succ k' =>
            rw [List.getD_cons_succ] at hel' ⊢
            exact h4 k' (by simpa using hk) hel' (by omega)
        · intro k hk hel'
          cases k with
          | zero =>
            rw [List.getD_cons_zero, hel] at hel'
            cases hel'
          | succ k' =>
            rw [List.getD_cons_succ] at hel' ⊢
            exact h5 k' (by simpa using hk) hel'
      | true =>
        have helig : eligibleB c t = true := by
          rw [eligibleB_eq, hterm, hneed]
          rfl
        by_cases hlt : distSq pc c < mn
        · obtain ⟨res, mres, heq, h1, h2, h3, h4, h5⟩ := ih (i + 1) (i, c)
            (distSq pc c) rfl (by omega)
          refine ⟨res, mres, ?_, h1, le_trans h2 (le_of_lt hlt), ?_, ?_, ?_⟩
          · rw [findGo_cons_elig_lt pc t c rest i jb mn hterm hneed hlt]
            exact heq
          · rcases h3 with h3 | ⟨ha, hb, hc, hd, he⟩
            · subst h3
              refine Or.inr ⟨le_refl i, by simp, by simp, helig, ?_⟩
              rw [h1]
              exact hlt
            · refine Or.inr ⟨by omega, by simp; omega, ?_, hd, lt_trans he hlt⟩
              have hsh : res.1 - i = (res.1 - (i + 1)) + 1 := by omega
              rw [hsh, List.getD_cons_succ]
              exact hc
          · intro k hk hel' hik
            cases k with
            | zero =>
              rw [List.getD_cons_zero]
              rcases h3 with h3 | ⟨ha, hb, hc, hd, he⟩
              · subst h3
                omega
              · exact he
            | succ k' =>
              rw [List.getD_cons_succ] at hel' ⊢
              exact h4 k' (by simpa using hk) hel' (by omega)
          · intro k hk hel'
            cases k with
            | zero =>
              rw [List.getD_cons_zero]
              exact h2
            | succ k' =>
              rw [List.getD_cons_succ] at hel' ⊢
              exact h5 k' (by simpa using hk) hel'
        · obtain ⟨res, mres, heq, h1, h2, h3, h4, h5⟩ := ih (i + 1) jb mn hmn (by omega)
          refine ⟨res, mres, ?_, h1, h2, ?_, ?_, ?_⟩
          · rw [findGo_cons_elig_ge pc t c rest i jb mn hterm hneed hlt]
            exact heq
          · rcases h3 with h3 | ⟨ha, hb, hc, hd, he⟩
            · exact Or.inl h3
            · refine Or.inr ⟨by omega, by simp; omega, ?_, hd, he⟩
              have hsh : res.1 - i = (res.1 - (i + 1)) + 1 := by omega
              rw [hsh, List.getD_cons_succ]
              exact hc
          · intro k hk hel' hik
            cases k with
            | zero =>
              rw [List.getD_cons_zero]
              rcases h3 with h3 | ⟨ha, hb, hc, hd, he⟩
              · subst h3
                omega
              · exact lt_of_lt_of_le he (not_lt.mp hlt)
            | succ k' =>
              rw [List.getD_cons_succ] at hel' ⊢
              exact h4 k' (by simpa using hk) hel' (by omega)
          · intro k hk hel'
            cases k with
            | zero =>
              rw [List.getD_cons_zero]
              exact le_trans h2 (not_lt.mp hlt)
            | succ k' =>
              rw [List.getD_cons_succ] at hel' ⊢
              exact h5 k' (by simpa using hk) hel'

lemma findGo_none_spec (pc : ℚ × ℚ) (t : ItemType) :
    ∀ (cs : List Customer) (i : ℕ),
      (findGo pc t cs i none = none ∧
        ∀ k, k < cs.length → eligibleB (cs.getD k defaultCustomer) t = false) ∨
      (∃ res mres, findGo pc t cs i none = some (res, mres) ∧
        mres = distSq pc res.2 ∧ i ≤ res.1 ∧ res.1 - i < cs.length ∧
        cs.getD (res.1 - i) defaultCustomer = res.2 ∧ eligibleB res.2 t = true ∧
        (∀ k, k < cs.length → eligibleB (cs.getD k defaultCustomer) t = true →
          i + k < res.1 → mres < distSq pc (cs.getD k defaultCustomer)) ∧
        (∀ k, k < cs.length → eligibleB (cs.getD k defaultCustomer) t = true →
          mres ≤ distSq pc (cs.getD k defaultCustomer))) := by
  intro cs
  induction cs with
  | nil =>
    intro i
    exact Or.inl ⟨rfl, by simp⟩
  | cons c rest ih =>
    intro i
    by_cases helig : eligibleB c t = true
    · have hterm : (c.satisfied || c.angry) = false := by
        rw [eligibleB_eq] at helig
        rcases Bool.and_eq_true_iff.mp helig with ⟨hna, _⟩
        cases hor : (c.satisfied || c.angry) with
        | false => rfl
        | true => rw [hor] at hna; cases hna
      have hneed : c.needsItem t = true := by
        rw [eligibleB_eq] at helig
        exact (Bool.and_eq_true_iff.mp helig).2
      obtain ⟨res, mres, heq, h1, h2, h3, h4, h5⟩ :=
        findGo_some_spec pc t rest (i + 1) (i, c) (distSq pc c) rfl (by omega)
      refine Or.inr ⟨res, mres, ?_, h1, ?_, ?_, ?_, ?_, ?_, ?_⟩
      · rw [findGo_cons_elig_none pc t c rest i hterm hneed]
        exact heq
      · rcases h3 with h3 | ⟨ha, _, _, _, _⟩
        · subst h3; exact le_refl i
        · omega
      · rcases h3 with h3 | ⟨ha, hb, _, _, _⟩
        · subst h3; simp
        · simp; omega
      · rcases h3 with h3 | ⟨ha, hb, hc, _, _⟩
        · subst h3; simp
        · have hsh : res.1 - i = (res.1 - (i + 1)) + 1 := by omega
          rw [hsh, List.getD_cons_succ]
          exact hc
      · rcases h3 with h3 | ⟨_, _, _, hd, _⟩
        · subst h3; exact helig
        · exact hd
      · intro k hk hel' hik
        cases k with
        | zero =>
          rw [List.getD_cons_zero]
          rcases h3 with h3 | ⟨ha, hb, hc, hd, he⟩
          · subst h3; omega
          · exact he
        | succ k' =>
          rw [List.getD_cons_succ] at hel' ⊢
          exact h4 k' (by simpa using hk) hel' (by omega)
      · intro k hk hel'
        cases k with
        | zero =>
          rw [List.getD_cons_zero]
          exact h2
        | succ k' =>
          rw [List.getD_cons_succ] at hel' ⊢
          exact h5 k' (by simpa using hk) hel'
    · have hel : eligibleB c t = false := by
        cases he : eligibleB c t with
        | false => rfl
        | true => exact absurd he helig
      have hstep : findGo pc t (c :: rest) i none = findGo pc t rest (i + 1) none := by
        rw [eligibleB_eq] at hel
        cases hterm : (c.satisfied || c.angry) with
        | true => exact findGo_cons_skip pc t c rest i none hterm
        | false =>
          cases hneed : c.needsItem t with
          | false => exact findGo_cons_noneed pc t c rest i none hterm hneed
          | true =>
            rw [hterm, hneed] at hel
            cases hel
      rcases ih (i + 1) with ⟨hnone, hall⟩ | ⟨res, mres, heq, h1, h2, h3, h4, h5, h6, h7⟩
      · refine Or.inl ⟨hstep.trans hnone, ?_⟩
        intro k hk
        cases k with
        | zero => rw [List.getD_cons_zero]; exact hel
        | succ k' =>
          rw [List.getD_cons_succ]
          exact hall k' (by simpa using hk)
      · refine Or.inr ⟨res, mres, hstep.trans heq, h1, by omega, by simp; omega, ?_, h5, ?_, ?_⟩
        · have hsh : res.1 - i = (res.1 - (i + 1)) + 1 := by omega
          rw [hsh, List.getD_cons_succ]
          exact h4
        · intro k hk hel' hik
          cases k with
          | zero =>
            rw [List.getD_cons_zero, hel] at hel'
            cases hel'
          | succ k' =>
            rw [List.getD_cons_succ] at hel' ⊢
            exact h6 k' (by simpa using hk) hel' (by omega)
        · intro k hk hel'
          cases k with
          | zero =>
            rw [List.getD_cons_zero, hel] at hel'
            cases hel'
          | succ k' =>
            rw [List.getD_cons_succ] at hel' ⊢
            exact h7 k' (by simpa using hk) hel'

/-- C1 (amended): `findNearestCustomerNeedingItem` returns the eligible
customer at the minimal squared distance, and among equidistant eligible
customers the one encountered first in the customers ARRAY (insertion)
order wins: every eligible customer strictly earlier in the array is
strictly farther, and every eligible customer later in the array is at
least as far.  Array order coincides with seat-index order only while no
removal/respawn has reordered the list. -/
theorem tieBreak_first_in_array (m : CustomerManager) (pc : ℚ × ℚ) (t : ItemType)
    (i : ℕ) (c : Customer)
    (h : m.findNearestCustomerNeedingItem pc t = some (i, c)) :
    i < m.customers.length ∧
    m.customers.getD i defaultCustomer = c ∧
    eligibleB c t = true ∧
    (∀ j, j < i → eligibleB (m.customers.getD j defaultCustomer) t = true →
      distSq pc c < distSq pc (m.customers.getD j defaultCustomer)) ∧
    (∀ j, i < j → j < m.customers.length →
      eligibleB (m.customers.getD j defaultCustomer) t = true →
      distSq pc c ≤ distSq pc (m.customers.getD j defaultCustomer)) := by
  unfold CustomerManager.findNearestCustomerNeedingItem at h
  by_cases hemp : m.customers.isEmpty
  · rw [if_pos hemp] at h
    cases h
  · rw [if_neg hemp] at h
    rcases findGo_none_spec pc t m.customers 0 with ⟨hnone, _⟩ |
      ⟨res, mres, heq, h1, _, h3, h4, h5, h6, h7⟩
    · rw [hnone] at h
      cases h
    · rw [heq] at h
      have hres : res = (i, c) := by simpa using h
      subst hres
      rw [Nat.sub_zero] at h3 h4
      have hic : mres = distSq pc c := h1
      refine ⟨h3, h4, h5, ?_, ?_⟩
      · intro j hj hel
        have := h6 j (by omega) hel (by omega)
        rw [hic] at this
        exact this
      · intro j _ hj hel
        have := h7 j hj hel
        rw [hic] at this
        exact this

/-- Trace for the C1 counterexample: configure for two concurrent customers,
spawn customers at seats 0 and 1, serve the seat-0 customer to completion,
let its deferred seat release fire, then spawn a third customer, which takes
the freed seat 0 but is appended at the END of the customers array. -/
def c1sA : CustomerManager := (initCustomerManager 0 0).configure 2 3000 15

def c1sB : CustomerManager := c1sA.update 1 1

def c1sC : CustomerManager := c1sB.update 3 1

def c1sD : CustomerManager := (c1sC.tryServeCustomer (-45, 35) (some ⟨ItemType.kebab⟩)).2

def c1servedCust : Customer := c1sD.customers.getD 0 defaultCustomer

def c1sE : CustomerManager := c1sD.releaseCustomer c1servedCust

def c1Final : CustomerManager := c1sE.update 3 1

/-- C1 (counterexample): `c1Final` is reachable from a fresh manager; its
customer array holds the seat-1 customer before the seat-0 customer.  With
the player exactly halfway between them (both squared distances are
`4225/4`, i.e. `Math.hypot` distance `32.5`, exactly representable in
floats) and both needing a kebab, `findNearestCustomerNeedingItem` selects
the customer at seat index 1 — the first in array order — although the
equidistant seat-0 customer comes first in seat-index order. -/
theorem nearest_tieBreak_cex :
    CMReachable 0 0 c1Final ∧
    (c1Final.findNearestCustomerNeedingItem (-25/2, 35) ItemType.kebab).map
        (fun p => p.2.positionIndex) = some 1 ∧
    c1Final.customers.map Customer.positionIndex = [1, 0] ∧
    eligibleB (c1Final.customers.getD 0 defaultCustomer) ItemType.kebab = true ∧
    eligibleB (c1Final.customers.getD 1 defaultCustomer) ItemType.kebab = true ∧
    distSq (-25/2, 35) (c1Final.customers.getD 0 defaultCustomer)
      = distSq (-25/2, 35) (c1Final.customers.getD 1 defaultCustomer) := by
  refine ⟨?_, by decide, by decide, by decide, by decide, by decide⟩
  have s1 : CMStep (initCustomerManager 0 0) c1sA := CMStep.configure _ 2 3000 15
  have s2 : CMStep c1sA c1sB := CMStep.update _ 1 1
  have s3 : CMStep c1sB c1sC := CMStep.update _ 3 1
  have s4 : CMStep c1sC c1sD := CMStep.serve _ (-45, 35) (some ⟨ItemType.kebab⟩)
  have s5 : CMStep c1sD c1sE :=
    CMStep.release _ c1servedCust (by decide) (Or.inl (by decide))
  have s6 : CMStep c1sE c1Final := CMStep.update _ 3 1
  exact Relation.ReflTransGen.tail (Relation.ReflTransGen.tail
    (Relation.ReflTransGen.tail (Relation.ReflTransGen.tail
      (Relation.ReflTransGen.tail (Relation.ReflTransGen.tail
        Relation.ReflTransGen.refl s1) s2) s3) s4) s5) s6

def w1CustSeat1 : Customer :=
  { Customer.new 0 0 ⟨1, 0⟩ 10 with positionIndex := 1 }

def w1CustSeat0 : Customer :=
  { Customer.new (-50) 0 ⟨1, 0⟩ 10 with positionIndex := 0 }

def w1Manager : CustomerManager :=
  { initCustomerManager 0 0 with customers := [w1CustSeat1, w1CustSeat0] }

theorem tieBreak_first_in_array_witness :
    0 < w1Manager.customers.length ∧
    w1Manager.customers.getD 0 defaultCustomer = w1CustSeat1 ∧
    eligibleB w1CustSeat1 ItemType.kebab = true ∧
    distSq (0, 30) w1CustSeat1
      ≤ distSq (0, 30) (w1Manager.customers.getD 1 defaultCustomer) := by
  have h := tieBreak_first_in_array w1Manager (0, 30) ItemType.kebab 0 w1CustSeat1
    (by decide)
  exact ⟨h.1, h.2.1, h.2.2.1, h.2.2.2.2 1 (by decide) (by decide) (by decide)⟩
